import Mathlib

/-!
Verification of `layout_cloner.py`, a KiCAD Pcbnew script that clones a
template sub-layout (modules, zones, tracks) across a rectangular grid.

The script's own logic is embedded faithfully below:
* the reference-number remapping (`re.findall`/`re.sub` based, lines 85-89),
* the grid-offset arithmetic (lines 92-99, 129-131, 144-146),
* the module placement loop (lines 81-105),
* the comment-zone (layer 41) search (lines 109-119),
* the zone-cloning loop with pad-scan net assignment (lines 124-136),
* the track-cloning loop with deferred batch append (lines 140-149),
* the overall run (load, move, clone, save).

Borrowed pcbnew API collaborators are modelled as follows: board points are
integer pairs; `EDA_RECT.Contains` is an inclusive axis-aligned rectangle
test; a zone's geometry is abstracted to an axis-aligned rectangle, so
`GetBoundingBox` returns it and `HitTestInsideZone` is membership in it
(the pad-scan results proved below are parametric in the inside test, so
they do not depend on this choice); `TRACK::HitTest` against a rectangle is
modelled as an endpoint test; a module's `GetLayer`/`Flip` pair is modelled
as a two-valued board side with a toggle.  Strings are lists of characters
(the reference identifiers are plain ASCII).
-/

/-- Concatenation of the lists produced for each element of a list; used to
state what the Python loops accumulate by repeated appending. -/
def flatMapL {α β : Type} (f : α → List β) : List α → List β
  | [] => []
  | x :: xs => f x ++ flatMapL f xs

@[simp] lemma flatMapL_nil {α β : Type} (f : α → List β) : flatMapL f [] = [] := rfl

@[simp] lemma flatMapL_cons {α β : Type} (f : α → List β) (x : α) (xs : List α) :
    flatMapL f (x :: xs) = f x ++ flatMapL f xs := rfl

lemma flatMapL_map {α β γ : Type} (g : β → List γ) (f : α → β) :
    ∀ l : List α, flatMapL g (l.map f) = flatMapL (fun x => g (f x)) l
  | [] => rfl
  | x :: xs => by simp [flatMapL_map g f xs]

/-- Numeric value of a decimal digit string: Python `int` applied to the
digit-only string extracted at line 85. -/
def digitsToNat (l : List Char) : Nat :=
  l.foldl (fun a c => 10 * a + (c.toNat - 48)) 0

/-- Fuel-indexed decimal rendering of a natural number (most significant
digit first); models Python `str` on a non-negative `int`. -/
def natToDigitsAux : Nat → Nat → List Char
  | 0, _ => []
  | fuel + 1, n =>
    if n < 10 then [Nat.digitChar n]
    else natToDigitsAux fuel (n / 10) ++ [Nat.digitChar (n % 10)]

/-- Decimal rendering of a natural number, as Python `str`. -/
def natToDigits (n : Nat) : List Char := natToDigitsAux (n + 1) n

/-- Python `str` on an `int`: a leading minus sign for negative values. -/
def intToDigits (i : Int) : List Char :=
  if i < 0 then '-' :: natToDigits (-i).toNat else natToDigits i.toNat

lemma digitChar_toNat (d : Nat) (h : d < 10) : (Nat.digitChar d).toNat = 48 + d := by
  interval_cases d <;> decide

lemma digitChar_isDigit (d : Nat) (h : d < 10) : (Nat.digitChar d).isDigit = true := by
  interval_cases d <;> decide

lemma digitsToNat_concat (l : List Char) (c : Char) :
    digitsToNat (l ++ [c]) = 10 * digitsToNat l + (c.toNat - 48) := by
  simp [digitsToNat, List.foldl_append]

lemma digitsToNat_natToDigitsAux :
    ∀ (fuel n : Nat), n < fuel → digitsToNat (natToDigitsAux fuel n) = n := by
  intro fuel
  induction fuel with
  | zero => intro n h; omega
  | succ fuel ih =>
    intro n h
    by_cases h10 : n < 10
    · simp [natToDigitsAux, h10, digitsToNat, digitChar_toNat n h10]
    · have hlt : n / 10 < fuel :=
        lt_of_lt_of_le (Nat.div_lt_self (by omega) (by omega)) (by omega)
      have hmod : n % 10 < 10 := Nat.mod_lt _ (by omega)
      simp [natToDigitsAux, h10, digitsToNat_concat, ih _ hlt, digitChar_toNat _ hmod]
      omega

lemma digitsToNat_natToDigits (n : Nat) : digitsToNat (natToDigits n) = n :=
  digitsToNat_natToDigitsAux _ _ (Nat.lt_succ_self n)

lemma natToDigitsAux_isDigit :
    ∀ (fuel n : Nat), ∀ c ∈ natToDigitsAux fuel n, c.isDigit = true := by
  intro fuel
  induction fuel with
  | zero => intro n c hc; simp [natToDigitsAux] at hc
  | succ fuel ih =>
    intro n c hc
    by_cases h10 : n < 10
    · simp [natToDigitsAux, h10] at hc
      exact hc ▸ digitChar_isDigit n h10
    · simp [natToDigitsAux, h10] at hc
      rcases hc with hc | hc
      · exact ih _ c hc
      · exact hc ▸ digitChar_isDigit _ (Nat.mod_lt _ (by omega))

lemma natToDigits_isDigit (n : Nat) : ∀ c ∈ natToDigits n, c.isDigit = true :=
  natToDigitsAux_isDigit _ n

lemma natToDigitsAux_ne_nil :
    ∀ (fuel n : Nat), n < fuel → natToDigitsAux fuel n ≠ [] := by
  intro fuel
  induction fuel with
  | zero => intro n h; omega
  | succ fuel _ =>
    intro n _
    by_cases h10 : n < 10 <;> simp [natToDigitsAux, h10]

lemma natToDigits_ne_nil (n : Nat) : natToDigits n ≠ [] :=
  natToDigitsAux_ne_nil _ _ (Nat.lt_succ_self n)

lemma intToDigits_of_nonneg (i : Int) (h : 0 ≤ i) : intToDigits i = natToDigits i.toNat := by
  rw [intToDigits, if_neg (by omega)]

/-- First maximal digit run of a string:
`re.findall(r"\d+", templateRef).pop(0)` at line 85 (`none` when the string
has no digit, where Python raises `IndexError` popping an empty list). -/
def firstDigitRun : List Char → Option (List Char)
  | [] => none
  | c :: rest =>
    if c.isDigit then some ((c :: rest).takeWhile Char.isDigit)
    else firstDigitRun rest

lemma takeWhile_of_all {p : Char → Bool} :
    ∀ l : List Char, (∀ c ∈ l, p c = true) → l.takeWhile p = l := by
  intro l
  induction l with
  | nil => intro _; rfl
  | cons c rest ih =>
    intro h
    simp [List.takeWhile_cons, h c (by simp), ih fun x hx => h x (by simp [hx])]

lemma takeWhile_of_none {p : Char → Bool} :
    ∀ l : List Char, (∀ c ∈ l, p c = false) → l.takeWhile p = [] := by
  intro l
  cases l with
  | nil => intro _; rfl
  | cons c rest => intro h; simp [List.takeWhile_cons, h c (by simp)]

lemma takeWhile_digits_append (run suf : List Char)
    (hrun : ∀ c ∈ run, c.isDigit = true) (hsuf : ∀ c ∈ suf, c.isDigit = false) :
    (run ++ suf).takeWhile Char.isDigit = run := by
  induction run with
  | nil => simpa using takeWhile_of_none suf hsuf
  | cons c rest ih =>
    simp [List.takeWhile_cons, hrun c (by simp)]
    exact ih fun x hx => hrun x (by simp [hx])

lemma firstDigitRun_append_of_no_digit (a s : List Char)
    (ha : ∀ c ∈ a, c.isDigit = false) :
    firstDigitRun (a ++ s) = firstDigitRun s := by
  induction a with
  | nil => rfl
  | cons c rest ih =>
    simp [firstDigitRun, ha c (by simp)]
    exact ih fun x hx => ha x (by simp [hx])

lemma firstDigitRun_decomp (pre run suf : List Char)
    (hpre : ∀ c ∈ pre, c.isDigit = false)
    (hrun : run ≠ []) (hdig : ∀ c ∈ run, c.isDigit = true)
    (hsuf : ∀ c ∈ suf, c.isDigit = false) :
    firstDigitRun (pre ++ run ++ suf) = some run := by
  rw [List.append_assoc, firstDigitRun_append_of_no_digit pre _ hpre]
  cases run with
  | nil => exact absurd rfl hrun
  | cons d r =>
    have hd : d.isDigit = true := hdig d (by simp)
    show firstDigitRun (d :: (r ++ suf)) = _
    rw [firstDigitRun, if_pos hd]
    have := takeWhile_digits_append (d :: r) suf hdig hsuf
    simpa using this

/-- Fuel-indexed left-to-right deletion of every non-overlapping occurrence
of `pat` in a string: `re.sub(pat, "", s)` at line 89 for a pattern made of
digits only (no regex metacharacters). -/
def deleteAllAux (pat : List Char) : Nat → List Char → List Char
  | 0, s => s
  | _ + 1, [] => []
  | fuel + 1, c :: rest =>
    if pat.isPrefixOf (c :: rest) then deleteAllAux pat fuel ((c :: rest).drop pat.length)
    else c :: deleteAllAux pat fuel rest

/-- `re.sub(pat, "", s)`: delete every occurrence of `pat` in `s`. -/
def deleteAll (pat s : List Char) : List Char := deleteAllAux pat s.length s

lemma isPrefixOf_append_self : ∀ (l t : List Char), l.isPrefixOf (l ++ t) = true := by
  intro l
  induction l with
  | nil => intro t; cases t <;> rfl
  | cons c rest ih => intro t; simp [List.isPrefixOf, ih t]

lemma isPrefixOf_cons_of_ne (d c : Char) (p' rest : List Char) (h : d ≠ c) :
    (d :: p').isPrefixOf (c :: rest) = false := by
  simp [List.isPrefixOf, h]

lemma deleteAllAux_of_no_digit (d : Char) (p' : List Char) (hd : d.isDigit = true) :
    ∀ (fuel : Nat) (s : List Char), (∀ c ∈ s, c.isDigit = false) →
      deleteAllAux (d :: p') fuel s = s := by
  intro fuel
  induction fuel with
  | zero => intro s _; rfl
  | succ fuel ih =>
    intro s hs
    cases s with
    | nil => rfl
    | cons c rest =>
      have hne : d ≠ c := by
        intro h
        rw [h] at hd
        rw [hs c (by simp)] at hd
        exact Bool.false_ne_true hd
      rw [deleteAllAux, isPrefixOf_cons_of_ne d c p' rest hne]
      simp
      exact ih rest fun x hx => hs x (by simp [hx])

lemma deleteAllAux_decomp (d : Char) (p' suf : List Char)
    (hd : d.isDigit = true) (hsuf : ∀ c ∈ suf, c.isDigit = false) :
    ∀ (pre : List Char) (fuel : Nat), (∀ c ∈ pre, c.isDigit = false) →
      (pre ++ (d :: p') ++ suf).length ≤ fuel →
      deleteAllAux (d :: p') fuel (pre ++ (d :: p') ++ suf) = pre ++ suf := by
  intro pre
  induction pre with
  | nil =>
    intro fuel _ hlen
    cases fuel with
    | zero => simp at hlen
    | succ fuel =>
      have hshape : ([] : List Char) ++ (d :: p') ++ suf = d :: (p' ++ suf) := by simp
      rw [hshape, deleteAllAux]
      have hpref : (d :: p').isPrefixOf (d :: (p' ++ suf)) = true := by
        have := isPrefixOf_append_self (d :: p') suf
        simpa using this
      rw [if_pos hpref]
      have hdrop : (d :: (p' ++ suf)).drop (d :: p').length = suf := by
        have := List.drop_left (d :: p') suf
        simpa using this
      rw [hdrop, deleteAllAux_of_no_digit d p' hd fuel suf hsuf]
      simp
  | cons c pre' ih =>
    intro fuel hpre hlen
    cases fuel with
    | zero => simp at hlen
    | succ fuel =>
      have hne : d ≠ c := by
        intro h
        have := hpre c (by simp)
        rw [h, this] at hd
        exact Bool.false_ne_true hd
      have hshape : (c :: pre') ++ (d :: p') ++ suf = c :: (pre' ++ (d :: p') ++ suf) := by
        simp
      rw [hshape, deleteAllAux, isPrefixOf_cons_of_ne d c p' _ hne]
      simp only [Bool.false_eq_true, if_false]
      rw [ih fuel (fun x hx => hpre x (by simp [hx])) (by simp at hlen ⊢; omega)]
      rfl

lemma deleteAll_decomp (pre run suf : List Char)
    (hpre : ∀ c ∈ pre, c.isDigit = false)
    (hrun : run ≠ []) (hdig : ∀ c ∈ run, c.isDigit = true)
    (hsuf : ∀ c ∈ suf, c.isDigit = false) :
    deleteAll run (pre ++ run ++ suf) = pre ++ suf := by
  cases run with
  | nil => exact absurd rfl hrun
  | cons d p' =>
    exact deleteAllAux_decomp d p' suf (hdig d (by simp)) hsuf pre _ hpre le_rfl

/-- Body of the clone-reference computation at lines 88-89 once the digit
run has been extracted: `re.sub(run, "", templateRef) + str(int(run) + k*step)`
(slot `k` is `i+1` of the enumerated loop). -/
def cloneRefOfRun (tref run : List Char) (step : Int) (k : Nat) : List Char :=
  deleteAll run tref ++ intToDigits ((digitsToNat run : Int) + (k : Int) * step)

/-- The Reference Mapper (lines 85-89): extract the first maximal digit run,
add `k * step` to its numeric value, delete the run from the identifier and
append the decimal rendering of the new value.  `none` when the identifier
has no digit (Python raises `IndexError` there). -/
def cloneReference (tref : List Char) (step : Int) (k : Nat) : Option (List Char) :=
  match firstDigitRun tref with
  | none => none
  | some run => some (cloneRefOfRun tref run step k)

lemma cloneReference_decomp (pre run suf : List Char) (step : Int) (k : Nat)
    (hpre : ∀ c ∈ pre, c.isDigit = false)
    (hrun : run ≠ []) (hdig : ∀ c ∈ run, c.isDigit = true)
    (hsuf : ∀ c ∈ suf, c.isDigit = false) :
    cloneReference (pre ++ run ++ suf) step k
      = some (pre ++ suf ++ intToDigits ((digitsToNat run : Int) + (k : Int) * step)) := by
  rw [cloneReference, firstDigitRun_decomp pre run suf hpre hrun hdig hsuf]
  simp only [cloneRefOfRun]
  rw [deleteAll_decomp pre run suf hpre hrun hdig hsuf, List.append_assoc]

/-- Claim C3, counterexample: the mapper does not substitute the new numeral
in place.  On template "D201A" with step 100 and clone index 1 the code
produces "DA301" (the digit run is deleted wherever it occurs and the new
numeral is appended at the end), not the "D301A" the claim requires. -/
theorem C3_counterexample :
    cloneReference ['D', '2', '0', '1', 'A'] 100 1 = some ['D', 'A', '3', '0', '1']
    ∧ some ['D', 'A', '3', '0', '1'] ≠ some ['D', '3', '0', '1', 'A'] := by
  decide

/-- Claim C3, amended: for a template identifier `pre ++ run ++ suf` whose
first maximal digit run is `run` (prefix and suffix digit-free), the mapper
extracts `run`, computes `digitsToNat run + k * step`, deletes every
occurrence of the run from the identifier and appends the decimal rendering
of the new numeral at the end, yielding `pre ++ suf ++ newNumeral`; the
textual suffix is moved in front of the numeral, not preserved in place. -/
theorem C3_reference_mapper (pre run suf : List Char) (step : Int) (k : Nat)
    (hpre : ∀ c ∈ pre, c.isDigit = false)
    (hrun : run ≠ []) (hdig : ∀ c ∈ run, c.isDigit = true)
    (hsuf : ∀ c ∈ suf, c.isDigit = false) :
    cloneReference (pre ++ run ++ suf) step k
      = some (pre ++ suf ++ intToDigits ((digitsToNat run : Int) + (k : Int) * step)) :=
  cloneReference_decomp pre run suf step k hpre hrun hdig hsuf

/-- Claim C3, witness: "D201A" with step 100 and clone index 1 maps to
"DA301", as the amended claim computes. -/
theorem C3_witness :
    cloneReference (['D'] ++ ['2', '0', '1'] ++ ['A']) 100 1
      = some ['D', 'A', '3', '0', '1'] := by
  rw [C3_reference_mapper ['D'] ['2', '0', '1'] ['A'] 100 1
    (by decide) (by decide) (by decide) (by decide)]
  decide

/-- Claim C4, counterexample: with a negative offset step the round-trip
fails.  Template "D201", step -100, clone index 3: the new numeral is
201 - 300 = -99, rendered "-99", so the clone identifier is "D-99"; the
first digit run re-extracted from it is "99", and 99 - 3*(-100) = 399, not
the original numeral 201. -/
theorem C4_counterexample :
    cloneReference ['D', '2', '0', '1'] (-100) 3 = some ['D', '-', '9', '9']
    ∧ firstDigitRun ['D', '-', '9', '9'] = some ['9', '9']
    ∧ (digitsToNat ['9', '9'] : Int) - ((3 : Nat) : Int) * (-100)
        ≠ (digitsToNat ['2', '0', '1'] : Int) := by
  decide

/-- Claim C4, amended: for a template identifier with exactly one embedded
digit run, whenever the new numeral `digitsToNat run + k * step` is
non-negative (in particular for every non-negative offset step),
re-extracting the first digit run from the mapped clone identifier and
subtracting `k * step` recovers the template's original numeral. -/
theorem C4_mapper_roundtrip (pre run suf : List Char) (step : Int) (k : Nat)
    (hpre : ∀ c ∈ pre, c.isDigit = false)
    (hrun : run ≠ []) (hdig : ∀ c ∈ run, c.isDigit = true)
    (hsuf : ∀ c ∈ suf, c.isDigit = false)
    (hnn : 0 ≤ (digitsToNat run : Int) + (k : Int) * step) :
    ∃ cid nrun, cloneReference (pre ++ run ++ suf) step k = some cid
      ∧ firstDigitRun cid = some nrun
      ∧ (digitsToNat nrun : Int) - (k : Int) * step = (digitsToNat run : Int) := by
  refine ⟨pre ++ suf ++ intToDigits ((digitsToNat run : Int) + (k : Int) * step),
    natToDigits ((digitsToNat run : Int) + (k : Int) * step).toNat, ?_, ?_, ?_⟩
  · exact cloneReference_decomp pre run suf step k hpre hrun hdig hsuf
  · rw [intToDigits_of_nonneg _ hnn]
    have hps : ∀ c ∈ pre ++ suf, c.isDigit = false := by
      intro c hc
      rcases List.mem_append.mp hc with h | h
      · exact hpre c h
      · exact hsuf c h
    have hmain := firstDigitRun_decomp (pre ++ suf)
      (natToDigits ((digitsToNat run : Int) + (k : Int) * step).toNat) []
      hps (natToDigits_ne_nil _) (natToDigits_isDigit _) (by intro c hc; simp at hc)
    simpa [List.append_assoc] using hmain
  · rw [digitsToNat_natToDigits, Int.toNat_of_nonneg hnn]
    ring

/-- Claim C4, witness: template "D201", step 100, clone index 1: the clone
identifier is "D301", its digit run is "301", and 301 - 100 = 201. -/
theorem C4_witness :
    ∃ cid nrun, cloneReference (['D'] ++ ['2', '0', '1'] ++ []) 100 1 = some cid
      ∧ firstDigitRun cid = some nrun
      ∧ (digitsToNat nrun : Int) - ((1 : Nat) : Int) * 100
          = (digitsToNat ['2', '0', '1'] : Int) :=
  C4_mapper_roundtrip ['D'] ['2', '0', '1'] [] 100 1
    (by decide) (by decide) (by decide) (by decide) (by decide)

/-- Board side of a module: pcbnew front/back copper layer as toggled by
`MODULE::Flip` (line 97); modules live on one of the two outer sides. -/
inductive Side
  | front
  | back
deriving DecidableEq

/-- The side change performed by `Flip` (the footprint mirroring that comes
with it is borrowed geometry, abstracted away). -/
def flipSide : Side → Side
  | .front => .back
  | .back => .front

/-- Translation of a board point (`wxPoint` addition). -/
def ptAdd (a b : Int × Int) : Int × Int := (a.1 + b.1, a.2 + b.2)

/-- Axis-aligned bounding rectangle (`EDA_RECT`). -/
structure Rect where
  x0 : Int
  y0 : Int
  x1 : Int
  y1 : Int
deriving DecidableEq

/-- `EDA_RECT.Contains`: inclusive membership test. -/
def rectContains (r : Rect) (p : Int × Int) : Bool :=
  decide (r.x0 ≤ p.1 ∧ p.1 ≤ r.x1 ∧ r.y0 ≤ p.2 ∧ p.2 ≤ r.y1)

/-- Translate a rectangle by an offset. -/
def rectMove (r : Rect) (off : Int × Int) : Rect :=
  ⟨r.x0 + off.1, r.y0 + off.2, r.x1 + off.1, r.y1 + off.2⟩

/-- A pad: offset from its module's position, the layers it lies on
(`IsOnLayer`), and its net code (`GetNet().GetNet()`). -/
structure Pad where
  off : Int × Int
  layers : List Nat
  net : Nat
deriving DecidableEq

/-- A module (footprint): reference string, position, orientation,
board side and pads. -/
structure BoardModule where
  ref : List Char
  pos : Int × Int
  orient : Int
  side : Side
  pads : List Pad
deriving DecidableEq

/-- A zone: reference position (`GetPosition`), layer, net code, and its
geometry abstracted to an axis-aligned rectangle (serving as both
`GetBoundingBox` and the `HitTestInsideZone` region). -/
structure Zone where
  pos : Int × Int
  layer : Nat
  net : Nat
  rect : Rect
deriving DecidableEq

/-- A track segment: two endpoints (tracks carry no net in the script). -/
structure Track where
  p1 : Int × Int
  p2 : Int × Int
deriving DecidableEq

/-- The board: modules, zones (`GetArea`), tracks (`GetTracks`). -/
structure Board where
  modules : List BoardModule
  zones : List Zone
  tracks : List Track
deriving DecidableEq

/-- Grid offset of slot `s`: `(s % X * dx, s // X * dy)` — the formula of
lines 98 (with `s = counter+1`), 131 and 146 (with `s = i`). -/
def slotOffset (X : Nat) (dx dy : Int) (s : Nat) : Int × Int :=
  (((s % X : Nat) : Int) * dx, ((s / X : Nat) : Int) * dy)

/-- All translation offsets computed for the non-template slots
`1 .. X*Y-1` of the clone grid. -/
def gridOffsets (X Y : Nat) (dx dy : Int) : List (Int × Int) :=
  (List.range' 1 (X * Y - 1)).map (slotOffset X dx dy)

/-- Line 134's per-pad condition: the pad's absolute position passes the
inside test and the pad lies on the scanned layer. -/
def padMatches (inside : Int × Int → Bool) (layer : Nat) (m : BoardModule) (pad : Pad) : Bool :=
  inside (ptAdd m.pos pad.off) && pad.layers.contains layer

/-- Lines 132-135: scan every pad of every module in board order; each
matching pad overwrites the accumulated net (`SetNetCode`), so the last
match wins; `init` is the net the zone clone started with. -/
def scanPadNet (inside : Int × Int → Bool) (layer : Nat) (ms : List BoardModule) (init : Nat) : Nat :=
  ms.foldl (fun net m =>
    m.pads.foldl (fun net pad => if padMatches inside layer m pad then pad.net else net) net) init

/-- The pads matching the scan condition, in scan order. -/
def matchingPads (inside : Int × Int → Bool) (layer : Nat) (ms : List BoardModule) : List Pad :=
  flatMapL (fun m => m.pads.filter (padMatches inside layer m)) ms

lemma exists_getLast?_cons {α : Type} :
    ∀ (l : List α) (q : α), ∃ v, (q :: l).getLast? = some v ∧ v ∈ q :: l := by
  intro l
  induction l with
  | nil => intro q; exact ⟨q, rfl, by simp⟩
  | cons r t ih =>
    intro q
    obtain ⟨v, hv, hmem⟩ := ih r
    exact ⟨v, by rw [List.getLast?_cons_cons, hv], by simp at hmem ⊢; tauto⟩

lemma getLast?_append_right {α : Type} :
    ∀ (a b : List α), b ≠ [] → (a ++ b).getLast? = b.getLast? := by
  intro a
  induction a with
  | nil => intro b _; rfl
  | cons x a' ih =>
    intro b hb
    have hab : a' ++ b ≠ [] := by
      intro h
      exact hb (List.append_eq_nil.mp h).2
    cases hcons : a' ++ b with
    | nil => exact absurd hcons hab
    | cons y t =>
      show (x :: (a' ++ b)).getLast? = b.getLast?
      rw [hcons, List.getLast?_cons_cons, ← hcons, ih b hb]

lemma padFold_eq (c : Pad → Bool) :
    ∀ (pads : List Pad) (n0 : Nat),
      pads.foldl (fun n pad => if c pad then pad.net else n) n0
        = (((pads.filter c).getLast?).map Pad.net).getD n0 := by
  intro pads
  induction pads with
  | nil => intro n0; rfl
  | cons pad rest ih =>
    intro n0
    rw [List.foldl_cons, ih]
    by_cases hc : c pad
    · rw [if_pos hc, List.filter_cons_of_pos hc]
      cases hrf : rest.filter c with
      | nil => simp [hrf]
      | cons q t =>
        obtain ⟨v, hv, _⟩ := exists_getLast?_cons t q
        rw [List.getLast?_cons_cons, hv]
        simp
    · rw [if_neg hc, List.filter_cons_of_neg hc]

lemma scanPadNet_eq (inside : Int × Int → Bool) (layer : Nat) :
    ∀ (ms : List BoardModule) (init : Nat),
      scanPadNet inside layer ms init
        = (((matchingPads inside layer ms).getLast?).map Pad.net).getD init := by
  intro ms
  induction ms with
  | nil => intro init; rfl
  | cons m rest ih =>
    intro init
    show scanPadNet inside layer rest
        (m.pads.foldl
          (fun net pad => if padMatches inside layer m pad then pad.net else net) init) = _
    rw [ih, padFold_eq]
    have hsplit : matchingPads inside layer (m :: rest)
        = m.pads.filter (padMatches inside layer m) ++ matchingPads inside layer rest := rfl
    cases hmr : matchingPads inside layer rest with
    | nil => simp [hsplit, hmr]
    | cons q t =>
      obtain ⟨v, hv, _⟩ := exists_getLast?_cons t q
      rw [hsplit, hmr, getLast?_append_right _ (q :: t) (by simp), hv]
      simp

/-- Claim C2: for every duplicated region the net is assigned from the pads
on the duplicate's layer whose position passes the inside test, scanning
all modules (template and clones) in board order: the result is the net of
the last matching pad in scan order (deterministic last match wins; when
no pad matches, the initial net is kept), and in particular when all
matching pads carry one net the duplicate gets that net. -/
theorem C2_zone_net_assignment (inside : Int × Int → Bool) (layer : Nat)
    (ms : List BoardModule) (init : Nat) :
    scanPadNet inside layer ms init
      = (((matchingPads inside layer ms).getLast?).map Pad.net).getD init
    ∧ ∀ n : Nat, matchingPads inside layer ms ≠ [] →
        (∀ q ∈ matchingPads inside layer ms, q.net = n) →
        scanPadNet inside layer ms init = n := by
  refine ⟨scanPadNet_eq inside layer ms init, ?_⟩
  intro n hne hall
  rw [scanPadNet_eq]
  cases hm : matchingPads inside layer ms with
  | nil => exact absurd hm hne
  | cons q t =>
    obtain ⟨v, hv, hmem⟩ := exists_getLast?_cons t q
    have hvmem : v ∈ matchingPads inside layer ms := by rw [hm]; exact hmem
    rw [hv]
    simp [hall v hvmem]

/-- Test pad on net 1 ("GND"), layer 0, inside the test region. -/
def padGnd : Pad := ⟨(1, 1), [0], 1⟩

/-- Test pad on net 2 ("5V"), layer 0, inside the test region. -/
def padPwr : Pad := ⟨(2, 2), [0], 2⟩

/-- Test module carrying both test pads. -/
def modTest : BoardModule := ⟨['U', '1'], (0, 0), 0, Side.front, [padGnd, padPwr]⟩

/-- Test module carrying only the net-1 pad. -/
def modSolo : BoardModule := ⟨['U', '2'], (0, 0), 0, Side.front, [padGnd]⟩

/-- Test region containing both test pads. -/
def rectTest : Rect := ⟨0, 0, 5, 5⟩

/-- Claim C2, witness: with pads of nets 1 and 2 both inside, the zone gets
net 2, the last tested; with a single net-1 pad inside, it gets net 1. -/
theorem C2_witness :
    scanPadNet (fun p => rectContains rectTest p) 0 [modTest] 0 = 2
    ∧ scanPadNet (fun p => rectContains rectTest p) 0 [modSolo] 0 = 1 := by
  constructor
  · rw [(C2_zone_net_assignment (fun p => rectContains rectTest p) 0 [modTest] 0).1]
    decide
  · exact (C2_zone_net_assignment (fun p => rectContains rectTest p) 0 [modSolo] 0).2 1
      (by decide) (by decide)

lemma slotOffset_inj (X : Nat) (dx dy : Int) (hdx : dx ≠ 0) (hdy : dy ≠ 0)
    (s1 s2 : Nat) (h : slotOffset X dx dy s1 = slotOffset X dx dy s2) :
    s1 % X = s2 % X ∧ s1 / X = s2 / X := by
  rw [slotOffset, slotOffset, Prod.mk.injEq] at h
  obtain ⟨h1, h2⟩ := h
  exact ⟨Nat.cast_inj.mp (mul_right_cancel₀ hdx h1),
    Nat.cast_inj.mp (mul_right_cancel₀ hdy h2)⟩

/-- Claim C1, counterexample: the offsets are not distinct for every pitch.
For a 3-column, 1-row grid with pitch dx = 0, dy = 11 the two non-template
slots both get the offset (0, 0): the list of computed offsets has the
claimed length 2 but contains a duplicate. -/
theorem C1_counterexample :
    (gridOffsets 3 1 0 11).length = 3 * 1 - 1 ∧ ¬ (gridOffsets 3 1 0 11).Nodup := by
  decide

/-- Claim C1, amended: for nonzero pitches dx and dy, the offsets computed
for slots `1 .. X*Y-1` (formula `((s mod X)*dx, (s div X)*dy)`, shared by
the placement loop with `s = i+1` and the zone/track loops with `s = i`)
are pairwise distinct, number exactly `X*Y-1`, and are exactly the pairs
`(col*dx, row*dy)` with `col < X`, `row < Y`, `(col,row) ≠ (0,0)`.  (With a
zero pitch, distinctness fails, as the counterexample shows.) -/
theorem C1_grid_offsets (X Y : Nat) (dx dy : Int) (hdx : dx ≠ 0) (hdy : dy ≠ 0) :
    (gridOffsets X Y dx dy).Nodup
    ∧ (gridOffsets X Y dx dy).length = X * Y - 1
    ∧ ∀ p : Int × Int, p ∈ gridOffsets X Y dx dy ↔
        ∃ c r : Nat, c < X ∧ r < Y ∧ ¬(c = 0 ∧ r = 0)
          ∧ p = ((c : Int) * dx, (r : Int) * dy) := by
  obtain ⟨N, hN⟩ : ∃ N, X * Y = N := ⟨_, rfl⟩
  have hmem : ∀ s : Nat, s ∈ List.range' 1 (X * Y - 1) ↔ 1 ≤ s ∧ s < N := by
    intro s
    rw [List.mem_range'_1, hN]
    omega
  refine ⟨?_, ?_, ?_⟩
  · refine List.Nodup.map_on ?_ (List.nodup_range' _ _)
    intro s1 hs1 s2 hs2 heq
    obtain ⟨hm, hd⟩ := slotOffset_inj X dx dy hdx hdy s1 s2 heq
    calc s1 = X * (s1 / X) + s1 % X := (Nat.div_add_mod s1 X).symm
    _ = X * (s2 / X) + s2 % X := by rw [hm, hd]
    _ = s2 := Nat.div_add_mod s2 X
  · simp [gridOffsets]
  · intro p
    rw [gridOffsets, List.mem_map]
    constructor
    · rintro ⟨s, hs, rfl⟩
      rw [hmem] at hs
      obtain ⟨h1, h2⟩ := hs
      have hX : 0 < X := by
        rcases Nat.eq_zero_or_pos X with h | h
        · rw [h, Nat.zero_mul] at hN; omega
        · exact h
      refine ⟨s % X, s / X, Nat.mod_lt s hX, ?_, ?_, rfl⟩
      · rw [Nat.div_lt_iff_lt_mul hX]
        calc s < N := h2
        _ = X * Y := hN.symm
        _ = Y * X := Nat.mul_comm X Y
      · rintro ⟨hc, hr⟩
        have hsum := Nat.div_add_mod s X
        rw [hr, hc, Nat.mul_zero, Nat.add_zero] at hsum
        omega
    · rintro ⟨c, r, hc, hr, hnz, rfl⟩
      have hX : 0 < X := lt_of_le_of_lt (Nat.zero_le c) hc
      refine ⟨r * X + c, ?_, ?_⟩
      · rw [hmem]
        constructor
        · rcases Nat.eq_zero_or_pos c with h0 | hpos
          · have hrpos : 0 < r := by
              rcases Nat.eq_zero_or_pos r with h0r | hp
              · exact absurd ⟨h0, h0r⟩ hnz
              · exact hp
            have hle : X ≤ r * X := Nat.le_mul_of_pos_left X hrpos
            omega
          · omega
        · have hlt1 : r * X + c < (r + 1) * X := by
            rw [Nat.succ_mul]
            omega
          have hlt2 : (r + 1) * X ≤ Y * X :=
            Nat.mul_le_mul_right X (Nat.succ_le_of_lt hr)
          have hYX : Y * X = N := by rw [Nat.mul_comm, hN]
          omega
      · rw [slotOffset]
        have hmod : (r * X + c) % X = c := by
          rw [Nat.add_comm, Nat.add_mul_mod_self_right]
          exact Nat.mod_eq_of_lt hc
        have hdiv : (r * X + c) / X = r := by
          rw [Nat.add_comm, Nat.add_mul_div_right c r hX, Nat.div_eq_of_lt hc]
          omega
        rw [hmod, hdiv]

/-- Claim C1, witness: the spec's end-to-end example, a 2-by-2 grid with
pitch (10, 10): three pairwise distinct offsets. -/
theorem C1_witness :
    (gridOffsets 2 2 10 10).Nodup ∧ (gridOffsets 2 2 10 10).length = 2 * 2 - 1 :=
  ⟨(C1_grid_offsets 2 2 10 10 (by decide) (by decide)).1,
   (C1_grid_offsets 2 2 10 10 (by decide) (by decide)).2.1⟩

/-- `board.FindModuleByReference` (lines 82, 94): the first module carrying
the given reference. -/
def findModule (b : Board) (r : List Char) : Option BoardModule :=
  b.modules.find? (fun m => decide (m.ref = r))

/-- In-place mutation of the looked-up module object: replace the first
module carrying the given reference. -/
def updateFirstModule (r : List Char) (f : BoardModule → BoardModule) :
    List BoardModule → List BoardModule
  | [] => []
  | m :: ms => if m.ref = r then f m :: ms else m :: updateFirstModule r f ms

/-- Lines 96-100 for one clone at slot `k = counter+1`: flip the clone when
its side differs from the template's (lines 96-97), set its position to
the template position plus the slot offset (lines 98-99), and copy the
template's orientation (line 100). -/
def placeClone (X : Nat) (dx dy : Int) (k : Nat) (tm cm : BoardModule) : BoardModule :=
  { cm with
      side := if cm.side ≠ tm.side then flipSide cm.side else cm.side,
      pos := ptAdd tm.pos (slotOffset X dx dy k),
      orient := tm.orient }

/-- Lines 92-102: the enumerated loop over the clone references of one
template.  The template position is read afresh in every iteration
(line 93), modelled by looking the template up on the current board; a
missing clone module is reported and skipped (lines 101-102). -/
def moveStep (X : Nat) (dx dy : Int) (tref : List Char) (b : Board)
    (kc : Nat × List Char) : Board :=
  match findModule b tref, findModule b kc.2 with
  | some tm, some _ =>
      { b with modules := updateFirstModule kc.2 (placeClone X dx dy kc.1 tm) b.modules }
  | _, _ => b

/-- The loop of lines 92-102 over the enumerated clone references. -/
def moveClones (X : Nat) (dx dy : Int) (tref : List Char)
    (crefs : List (Nat × List Char)) (b : Board) : Board :=
  crefs.foldl (moveStep X dx dy tref) b

/-- A run stops without writing output in one of two ways: the Python
`IndexError` of line 85 popping from an empty list (digit-free reference
of a module that is on the board), or the `quit()` of line 119 when no
comment zone exists. -/
inductive RunError
  | malformedReference
  | markerNotFound
deriving DecidableEq

/-- Lines 81-104 for one entry of the reference list: skip silently when
the template is not on the board (lines 103-104); crash when its reference
has no digit (line 85); otherwise build the clone references (lines 84-90)
and move the clones. -/
def processTemplate (X Y : Nat) (dx dy : Int) (step : Int) (b : Board)
    (tref : List Char) : Except RunError Board :=
  match findModule b tref with
  | none => .ok b
  | some _ =>
    match firstDigitRun tref with
    | none => .error .malformedReference
    | some run =>
      .ok (moveClones X dx dy tref
        ((List.range' 1 (X * Y - 1)).map (fun k => (k, cloneRefOfRun tref run step k))) b)

/-- Lines 81-105: the module-cloning loop over the whole reference list. -/
def moveModules (X Y : Nat) (dx dy : Int) (step : Int) (refs : List (List Char))
    (b : Board) : Except RunError Board :=
  refs.foldlM (processTemplate X Y dx dy step) b

/-- Lines 109-115: scan all zones for ones on layer 41 (the comment
layer), keeping the bounding box of the LAST one found. -/
def findTemplateRect (zones : List Zone) : Option Rect :=
  zones.foldl (fun acc z => if z.layer = 41 then some z.rect else acc) none

/-- Line 128's eligibility test: the zone's position lies inside the
comment rectangle and the zone is not itself on layer 41. -/
def zoneElig (rect : Rect) (z : Zone) : Bool :=
  rectContains rect z.pos && decide (z.layer ≠ 41)

/-- Lines 130-135 for one slot: duplicate the zone, move it by the slot
offset, and assign its net by the pad scan over all modules (a scan with
no matching pad keeps the duplicated net). -/
def mkZoneClone (X : Nat) (dx dy : Int) (ms : List BoardModule) (z : Zone) (s : Nat) : Zone :=
  let off := slotOffset X dx dy s
  let zc : Zone := { z with pos := ptAdd z.pos off, rect := rectMove z.rect off }
  { zc with net := scanPadNet (fun p => rectContains zc.rect p) zc.layer ms zc.net }

/-- Lines 129-136: the duplicates of one eligible zone, slots 1..X*Y-1. -/
def zoneClones (X Y : Nat) (dx dy : Int) (ms : List BoardModule) (z : Zone) : List Zone :=
  (List.range' 1 (X * Y - 1)).map (mkZoneClone X dx dy ms z)

/-- One iteration of the zone loop at index `i`: read `board.GetArea(i)`
from the current zone list and, when eligible, append the zone's clones
(`board.Add`, line 136). -/
def zoneStep (X Y : Nat) (dx dy : Int) (rect : Rect) (ms : List BoardModule)
    (zs : List Zone) (i : Nat) : List Zone :=
  match zs[i]? with
  | some z => if zoneElig rect z then zs ++ zoneClones X Y dx dy ms z else zs
  | none => zs

/-- Lines 124-136: the zone-cloning loop.  `range(0, board.GetAreaCount())`
is evaluated once at loop entry, so the loop visits exactly the indices of
the zones present at entry, while `board.GetArea(i)` reads the CURRENT
zone list, which grows through `board.Add`. -/
def zoneLoop (X Y : Nat) (dx dy : Int) (rect : Rect) (ms : List BoardModule)
    (zones0 : List Zone) : List Zone :=
  (List.range zones0.length).foldl (zoneStep X Y dx dy rect ms) zones0

/-- `TRACK::HitTest(EDA_RECT)` modelled as an endpoint-membership test
(borrowed geometry; the track-cloning theorem below is parametric in the
hit test, so it does not depend on this choice). -/
def trackHit (t : Track) (r : Rect) : Bool :=
  rectContains r t.p1 || rectContains r t.p2

/-- `Duplicate()` plus `Move(offset)` for one track (lines 145-146). -/
def trackMove (t : Track) (off : Int × Int) : Track :=
  ⟨ptAdd t.p1 off, ptAdd t.p2 off⟩

/-- The duplicates of one hit track, slots 1..X*Y-1 (lines 144-147). -/
def trackClones (X Y : Nat) (dx dy : Int) (t : Track) : List Track :=
  (List.range' 1 (X * Y - 1)).map (fun s => trackMove t (slotOffset X dx dy s))

/-- Lines 140-149: the first loop collects the duplicates of every track
hitting the comment rectangle into the temporary list `cloneTracks`; the
second loop appends them one by one to the board's track list AFTER the
intersection scan has finished. -/
def cloneTracksStep (hit : Track → Rect → Bool) (rect : Rect) (X Y : Nat)
    (dx dy : Int) (tracks : List Track) : List Track :=
  let cloneTracks := tracks.foldl
    (fun acc t => if hit t rect then acc ++ trackClones X Y dx dy t else acc) []
  cloneTracks.foldl (fun ts c => ts ++ [c]) tracks

/-- Whether a run result reached `board.Save` (line 153). -/
def savesOutput : Except RunError Board → Bool
  | .ok _ => true
  | .error _ => false

/-- The whole run (lines 78-153) on a loaded board: move the modules
(lines 81-105), find the comment rectangle, quitting when there is none
(lines 109-119), clone the zones (lines 124-136) using the module list as
it stands after placement (line 121), clone the tracks (lines 140-149),
and save.  The parameter `sStart` is the `-s` option (`templateRefStart`,
lines 47 and 71): parsed and stored but never read afterwards. -/
def cloneRun (step sStart : Int) (dx dy : Int) (X Y : Nat)
    (refs : List (List Char)) (b : Board) : Except RunError Board :=
  match moveModules X Y dx dy step refs b with
  | .error e => .error e
  | .ok b1 =>
    match findTemplateRect b1.zones with
    | none => .error .markerNotFound
    | some rect =>
      .ok { b1 with
              zones := zoneLoop X Y dx dy rect b1.modules b1.zones,
              tracks := cloneTracksStep trackHit rect X Y dx dy b1.tracks }

/-- Zone count of a run result (`none` when the run aborted). -/
def zonesLenOf : Except RunError Board → Option Nat
  | .ok b => some b.zones.length
  | .error _ => none

/-- Track count of a run result (`none` when the run aborted). -/
def tracksLenOf : Except RunError Board → Option Nat
  | .ok b => some b.tracks.length
  | .error _ => none

/-- Two consecutive runs with identical arguments. -/
def runTwice (step sStart : Int) (dx dy : Int) (X Y : Nat)
    (refs : List (List Char)) (b : Board) : Except RunError Board :=
  match cloneRun step sStart dx dy X Y refs b with
  | .ok b1 => cloneRun step sStart dx dy X Y refs b1
  | .error e => .error e

/-- Claim C7: after the placement of a clone its rotation equals the
template's, its board side equals the template's, and the side changed
(the flip toggle, applied at most once) exactly when the clone's side
differed from the template's before processing. -/
theorem C7_flip_toggle (X : Nat) (dx dy : Int) (k : Nat) (tm cm : BoardModule) :
    (placeClone X dx dy k tm cm).orient = tm.orient
    ∧ (placeClone X dx dy k tm cm).side = tm.side
    ∧ ((placeClone X dx dy k tm cm).side ≠ cm.side ↔ cm.side ≠ tm.side) := by
  refine ⟨rfl, ?_, ?_⟩ <;>
    cases h1 : cm.side <;> cases h2 : tm.side <;>
      simp [placeClone, flipSide, h1, h2]

/-- Claim C9: the starting-reference-number option (`-s`, default 200) has
no effect on the run: two runs identical except for its value produce
identical results. -/
theorem C9_start_option_unused (step sA sB dx dy : Int) (X Y : Nat)
    (refs : List (List Char)) (b : Board) :
    cloneRun step sA dx dy X Y refs b = cloneRun step sB dx dy X Y refs b := rfl

lemma trackCollect_eq (hit : Track → Rect → Bool) (rect : Rect) (X Y : Nat) (dx dy : Int) :
    ∀ (tracks acc : List Track),
      tracks.foldl (fun acc t => if hit t rect then acc ++ trackClones X Y dx dy t else acc) acc
        = acc ++ flatMapL (fun t => if hit t rect then trackClones X Y dx dy t else []) tracks := by
  intro tracks
  induction tracks with
  | nil => intro acc; simp
  | cons t rest ih =>
    intro acc
    rw [List.foldl_cons]
    by_cases h : hit t rect
    · rw [if_pos h, ih, flatMapL_cons, if_pos h, List.append_assoc]
    · rw [if_neg h, ih, flatMapL_cons, if_neg h, List.nil_append]

lemma appendFold_eq {α : Type} :
    ∀ (cs ts : List α), cs.foldl (fun ts c => ts ++ [c]) ts = ts ++ cs := by
  intro cs
  induction cs with
  | nil => intro ts; simp
  | cons c rest ih =>
    intro ts
    rw [List.foldl_cons, ih]
    simp

lemma flatMapL_clones_length {α β : Type} (q : α → Bool) (g : α → List β) (K : Nat)
    (hg : ∀ x, (g x).length = K) :
    ∀ l : List α,
      (flatMapL (fun x => if q x then g x else []) l).length = l.countP q * K := by
  intro l
  induction l with
  | nil => simp
  | cons x rest ih =>
    rw [flatMapL_cons, List.length_append, ih, List.countP_cons]
    by_cases h : q x
    · rw [if_pos h, hg x]
      simp only [h, if_pos]
      ring
    · rw [if_neg h]
      simp [h]

/-- Claim C6: for any hit test, a track that does not hit the marker
rectangle contributes zero duplicates, and a hitting track contributes
exactly `X*Y-1` duplicates, each translated by its slot's grid offset
(`trackClones`); all duplicates are appended to the track list after the
originals, in one batch once the intersection scan over the original
tracks has finished. -/
theorem C6_track_cloning (hit : Track → Rect → Bool) (rect : Rect) (X Y : Nat)
    (dx dy : Int) (tracks : List Track) :
    cloneTracksStep hit rect X Y dx dy tracks
      = tracks ++ flatMapL (fun t => if hit t rect then trackClones X Y dx dy t else []) tracks
    ∧ (cloneTracksStep hit rect X Y dx dy tracks).length
      = tracks.length + tracks.countP (fun t => hit t rect) * (X * Y - 1) := by
  have h1 : cloneTracksStep hit rect X Y dx dy tracks
      = tracks ++ flatMapL (fun t => if hit t rect then trackClones X Y dx dy t else []) tracks := by
    simp only [cloneTracksStep]
    rw [trackCollect_eq hit rect X Y dx dy tracks [], List.nil_append, appendFold_eq]
  refine ⟨h1, ?_⟩
  rw [h1, List.length_append,
    flatMapL_clones_length (fun t => hit t rect) (trackClones X Y dx dy) (X * Y - 1)
      (fun t => by simp [trackClones]) tracks]

/-- The clone contribution of the entry-list zone at index `i`. -/
def idxF {α β : Type} (F : α → List β) (l : List α) (i : Nat) : List β :=
  match l[i]? with
  | some z => F z
  | none => []

lemma zoneLoop_aux (X Y : Nat) (dx dy : Int) (rect : Rect) (ms : List BoardModule)
    (zones0 : List Zone) :
    ∀ (idxs : List Nat) (extra : List Zone), (∀ i ∈ idxs, i < zones0.length) →
      idxs.foldl (zoneStep X Y dx dy rect ms) (zones0 ++ extra)
        = zones0 ++ extra ++ flatMapL
            (idxF (fun z => if zoneElig rect z then zoneClones X Y dx dy ms z else []) zones0)
            idxs := by
  intro idxs
  induction idxs with
  | nil => intro extra _; simp
  | cons i rest ih =>
    intro extra hbound
    have hi : i < zones0.length := hbound i (by simp)
    have hsome : zones0[i]? = some zones0[i] := List.getElem?_eq_getElem hi
    have hstep : zoneStep X Y dx dy rect ms (zones0 ++ extra) i
        = if zoneElig rect zones0[i]
          then zones0 ++ (extra ++ zoneClones X Y dx dy ms zones0[i])
          else zones0 ++ extra := by
      simp only [zoneStep]
      rw [List.getElem?_append_left hi, hsome]
      by_cases he : zoneElig rect zones0[i] <;> simp [he, List.append_assoc]
    have hidx : idxF (fun z => if zoneElig rect z then zoneClones X Y dx dy ms z else [])
        zones0 i = if zoneElig rect zones0[i] then zoneClones X Y dx dy ms zones0[i] else [] := by
      simp only [idxF]
      rw [hsome]
    rw [List.foldl_cons, hstep, flatMapL_cons, hidx]
    by_cases he : zoneElig rect zones0[i]
    · rw [if_pos he, if_pos he,
        ih (extra ++ zoneClones X Y dx dy ms zones0[i]) (fun j hj => hbound j (by simp [hj]))]
      simp [List.append_assoc]
    · rw [if_neg he, if_neg he, ih extra (fun j hj => hbound j (by simp [hj]))]
      simp

lemma flatMapL_range_index {α β : Type} (F : α → List β) :
    ∀ l : List α, flatMapL (idxF F l) (List.range l.length) = flatMapL F l := by
  intro l
  induction l with
  | nil => simp
  | cons z rest ih =>
    rw [show (z :: rest).length = rest.length + 1 from rfl, List.range_succ_eq_map,
      flatMapL_cons, flatMapL_map]
    have hfun : (fun i => idxF F (z :: rest) (Nat.succ i)) = idxF F rest := by
      funext i
      simp only [idxF, List.getElem?_cons_succ]
    have hzero : idxF F (z :: rest) 0 = F z := by
      simp only [idxF, List.getElem?_cons_zero]
    rw [hfun, ih, hzero]
    rfl

/-- Claim C10: the zone scan is bounded by the zone count taken at loop
entry, so the duplicates appended mid-run are never re-selected as
templates: the final zone list is exactly the entry list followed by the
clones of its eligible zones, and each eligible zone (position inside the
marker bounding box, layer not 41) contributes exactly `X*Y-1` duplicates
per run, no more. -/
theorem C10_zone_scan_bounded (X Y : Nat) (dx dy : Int) (rect : Rect)
    (ms : List BoardModule) (zones0 : List Zone) :
    zoneLoop X Y dx dy rect ms zones0
      = zones0
        ++ flatMapL (fun z => if zoneElig rect z then zoneClones X Y dx dy ms z else []) zones0
    ∧ (zoneLoop X Y dx dy rect ms zones0).length
      = zones0.length + zones0.countP (zoneElig rect) * (X * Y - 1) := by
  have h1 : zoneLoop X Y dx dy rect ms zones0
      = zones0
        ++ flatMapL (fun z => if zoneElig rect z then zoneClones X Y dx dy ms z else [])
            zones0 := by
    have haux := zoneLoop_aux X Y dx dy rect ms zones0 (List.range zones0.length) []
      (fun i hi => List.mem_range.mp hi)
    rw [List.append_nil] at haux
    rw [zoneLoop, haux, flatMapL_range_index
      (fun z => if zoneElig rect z then zoneClones X Y dx dy ms z else []) zones0]
  refine ⟨h1, ?_⟩
  rw [h1, List.length_append,
    flatMapL_clones_length (zoneElig rect) (zoneClones X Y dx dy ms) (X * Y - 1)
      (fun z => by simp [zoneClones]) zones0]

lemma placeClone_ref (X : Nat) (dx dy : Int) (k : Nat) (tm cm : BoardModule) :
    (placeClone X dx dy k tm cm).ref = cm.ref := rfl

lemma updateFirstModule_map_ref (r : List Char) (f : BoardModule → BoardModule)
    (hf : ∀ m, (f m).ref = m.ref) :
    ∀ ms : List BoardModule,
      (updateFirstModule r f ms).map BoardModule.ref = ms.map BoardModule.ref := by
  intro ms
  induction ms with
  | nil => rfl
  | cons m rest ih =>
    by_cases h : m.ref = r
    · simp [updateFirstModule, h, hf]
    · simp [updateFirstModule, h, ih]

lemma moveStep_inv (X : Nat) (dx dy : Int) (tref : List Char) (b : Board)
    (kc : Nat × List Char) :
    (moveStep X dx dy tref b kc).zones = b.zones
    ∧ (moveStep X dx dy tref b kc).tracks = b.tracks
    ∧ (moveStep X dx dy tref b kc).modules.map BoardModule.ref
        = b.modules.map BoardModule.ref := by
  cases hft : findModule b tref with
  | none => simp [moveStep, hft]
  | some tm =>
    cases hfc : findModule b kc.2 with
    | none => simp [moveStep, hft, hfc]
    | some cm =>
      have hm : moveStep X dx dy tref b kc
          = { b with modules := updateFirstModule kc.2 (placeClone X dx dy kc.1 tm) b.modules } := by
        simp only [moveStep, hft, hfc]
      rw [hm]
      exact ⟨rfl, rfl,
        updateFirstModule_map_ref kc.2 (placeClone X dx dy kc.1 tm) (fun m => rfl) b.modules⟩

lemma moveClones_inv (X : Nat) (dx dy : Int) (tref : List Char) :
    ∀ (crefs : List (Nat × List Char)) (b : Board),
      (moveClones X dx dy tref crefs b).zones = b.zones
      ∧ (moveClones X dx dy tref crefs b).tracks = b.tracks
      ∧ (moveClones X dx dy tref crefs b).modules.map BoardModule.ref
          = b.modules.map BoardModule.ref := by
  intro crefs
  induction crefs with
  | nil => intro b; exact ⟨rfl, rfl, rfl⟩
  | cons kc rest ih =>
    intro b
    have hstep := moveStep_inv X dx dy tref b kc
    have hrest := ih (moveStep X dx dy tref b kc)
    have hcons : moveClones X dx dy tref (kc :: rest) b
        = moveClones X dx dy tref rest (moveStep X dx dy tref b kc) := rfl
    rw [hcons]
    exact ⟨hrest.1.trans hstep.1, hrest.2.1.trans hstep.2.1, hrest.2.2.trans hstep.2.2⟩

lemma find?_ref_isSome (r : List Char) :
    ∀ ms : List BoardModule,
      (ms.find? (fun m => decide (m.ref = r))).isSome
        = (ms.map BoardModule.ref).any (fun x => decide (x = r)) := by
  intro ms
  induction ms with
  | nil => rfl
  | cons m rest ih =>
    by_cases h : m.ref = r <;> simp [List.find?_cons, h, ih]

lemma findModule_isSome_of_map_ref (b1 b2 : Board)
    (h : b1.modules.map BoardModule.ref = b2.modules.map BoardModule.ref)
    (r : List Char) :
    (findModule b1 r).isSome = (findModule b2 r).isSome := by
  rw [findModule, findModule, find?_ref_isSome, find?_ref_isSome, h]

lemma processTemplate_saves (X Y : Nat) (dx dy : Int) (step : Int) (b : Board)
    (tref : List Char) :
    savesOutput (processTemplate X Y dx dy step b tref)
      = (!(findModule b tref).isSome || (firstDigitRun tref).isSome) := by
  cases hf : findModule b tref <;> cases hd : firstDigitRun tref <;>
    simp [processTemplate, hf, hd, savesOutput]

lemma processTemplate_inv (X Y : Nat) (dx dy : Int) (step : Int) (b : Board)
    (tref : List Char) (b' : Board)
    (h : processTemplate X Y dx dy step b tref = .ok b') :
    b'.zones = b.zones ∧ b'.tracks = b.tracks
    ∧ b'.modules.map BoardModule.ref = b.modules.map BoardModule.ref := by
  cases hf : findModule b tref with
  | none =>
    simp only [processTemplate, hf] at h
    injection h with h
    subst h
    exact ⟨rfl, rfl, rfl⟩
  | some tm =>
    cases hd : firstDigitRun tref with
    | none => simp [processTemplate, hf, hd] at h
    | some run =>
      simp only [processTemplate, hf, hd] at h
      injection h with h
      subst h
      exact moveClones_inv X dx dy tref _ b

lemma listAllCongr {α : Type} (f g : α → Bool) :
    ∀ l : List α, (∀ x ∈ l, f x = g x) → l.all f = l.all g := by
  intro l
  induction l with
  | nil => intro _; rfl
  | cons x rest ih =>
    intro h
    rw [List.all_cons, List.all_cons, h x (by simp), ih fun y hy => h y (by simp [hy])]

lemma moveModules_saves (X Y : Nat) (dx dy : Int) (step : Int) :
    ∀ (refs : List (List Char)) (b : Board),
      savesOutput (moveModules X Y dx dy step refs b)
        = refs.all (fun r => !(findModule b r).isSome || (firstDigitRun r).isSome) := by
  intro refs
  induction refs with
  | nil => intro b; rfl
  | cons r rest ih =>
    intro b
    rw [moveModules, List.foldlM_cons]
    cases hp : processTemplate X Y dx dy step b r with
    | error e =>
      have hps := processTemplate_saves X Y dx dy step b r
      rw [hp] at hps
      rw [List.all_cons, ← hps]
      rfl
    | ok b' =>
      have hps := processTemplate_saves X Y dx dy step b r
      rw [hp] at hps
      have hinv := processTemplate_inv X Y dx dy step b r b' hp
      have hbind : (Except.ok b' >>= fun bb =>
          rest.foldlM (processTemplate X Y dx dy step) bb)
        = rest.foldlM (processTemplate X Y dx dy step) b' := rfl
      rw [hbind, List.all_cons, ← hps]
      have hcong : rest.all (fun x => !(findModule b' x).isSome || (firstDigitRun x).isSome)
          = rest.all (fun x => !(findModule b x).isSome || (firstDigitRun x).isSome) :=
        listAllCongr _ _ rest fun x _ => by
          rw [findModule_isSome_of_map_ref b' b hinv.2.2 x]
      have := ih b'
      rw [moveModules] at this
      rw [this, hcong]
      simp [savesOutput]

lemma moveModules_inv (X Y : Nat) (dx dy : Int) (step : Int) :
    ∀ (refs : List (List Char)) (b bf : Board),
      moveModules X Y dx dy step refs b = .ok bf →
      bf.zones = b.zones ∧ bf.tracks = b.tracks
      ∧ bf.modules.map BoardModule.ref = b.modules.map BoardModule.ref := by
  intro refs
  induction refs with
  | nil =>
    intro b bf h
    rw [moveModules, List.foldlM_nil] at h
    injection h with h
    subst h
    exact ⟨rfl, rfl, rfl⟩
  | cons r rest ih =>
    intro b bf h
    rw [moveModules, List.foldlM_cons] at h
    cases hp : processTemplate X Y dx dy step b r with
    | error e => rw [hp] at h; simp [Bind.bind, Except.bind] at h
    | ok b' =>
      rw [hp] at h
      have h' : moveModules X Y dx dy step rest b' = .ok bf := h
      have h1 := ih b' bf h'
      have h2 := processTemplate_inv X Y dx dy step b r b' hp
      exact ⟨h1.1.trans h2.1, h1.2.1.trans h2.2.1, h1.2.2.trans h2.2.2⟩

lemma findTemplateRect_fold_isSome :
    ∀ (zs : List Zone) (acc : Option Rect),
      (zs.foldl (fun acc z => if z.layer = 41 then some z.rect else acc) acc).isSome
        = (acc.isSome || zs.any (fun z => decide (z.layer = 41))) := by
  intro zs
  induction zs with
  | nil => intro acc; simp
  | cons z rest ih =>
    intro acc
    rw [List.foldl_cons]
    by_cases h : z.layer = 41
    · rw [if_pos h, ih]
      simp [h]
    · rw [if_neg h, ih]
      simp [h]

lemma findTemplateRect_isSome_any (zs : List Zone) :
    (findTemplateRect zs).isSome = zs.any (fun z => decide (z.layer = 41)) := by
  have := findTemplateRect_fold_isSome zs none
  simpa [findTemplateRect] using this

lemma findTemplateRect_fold_last :
    ∀ (zs : List Zone) (acc : Option Rect),
      zs.foldl (fun acc z => if z.layer = 41 then some z.rect else acc) acc
        = match (zs.filter (fun z => decide (z.layer = 41))).getLast? with
          | some z => some z.rect
          | none => acc := by
  intro zs
  induction zs with
  | nil => intro acc; rfl
  | cons z rest ih =>
    intro acc
    rw [List.foldl_cons]
    by_cases h : z.layer = 41
    · rw [if_pos h, ih, List.filter_cons_of_pos (by simp [h])]
      cases hrf : rest.filter (fun z => decide (z.layer = 41)) with
      | nil => simp [hrf]
      | cons q t =>
        obtain ⟨v, hv, _⟩ := exists_getLast?_cons t q
        simp [hv, List.getLast?_cons_cons]
    · rw [if_neg h, ih, List.filter_cons_of_neg (by simp [h])]

/-- A board consisting of two comment-layer (41) zones and nothing else. -/
def twoMarkerBoard : Board :=
  ⟨[], [⟨(0, 0), 41, 0, ⟨0, 0, 10, 10⟩⟩, ⟨(1, 1), 41, 0, ⟨0, 0, 12, 12⟩⟩], []⟩

/-- Claim C5, counterexample: a board with TWO marker regions does not
abort — the run reaches the save (using the last marker's bounding box),
refuting the "aborts if more than one marker region" direction of the
claimed equivalence. -/
theorem C5_counterexample :
    twoMarkerBoard.zones.countP (fun z => decide (z.layer = 41)) = 2
    ∧ savesOutput (cloneRun 100 200 10 10 2 2 [] twoMarkerBoard) = true := by
  decide

/-- Claim C5, amended: the run reaches the save (writes output) if and only
if the board has AT LEAST ONE marker zone (layer 41) — when several exist,
the bounding box of the last one in board order is used — and every
reference that resolves to a module on the board contains a digit (a
digit-free resolvable reference crashes the run before the save); lookup
misses of template or clone identifiers are logged, skipped and
non-fatal. -/
theorem C5_abort_conditions (step sStart dx dy : Int) (X Y : Nat)
    (refs : List (List Char)) (b : Board) :
    savesOutput (cloneRun step sStart dx dy X Y refs b)
      = (refs.all (fun r => !(findModule b r).isSome || (firstDigitRun r).isSome)
         && b.zones.any (fun z => decide (z.layer = 41)))
    ∧ ∀ zs : List Zone, findTemplateRect zs
        = match (zs.filter (fun z => decide (z.layer = 41))).getLast? with
          | some z => some z.rect
          | none => none := by
  constructor
  · have hall := moveModules_saves X Y dx dy step refs b
    cases hm : moveModules X Y dx dy step refs b with
    | error e =>
      rw [hm] at hall
      have hfalse : refs.all
          (fun r => !(findModule b r).isSome || (firstDigitRun r).isSome) = false := by
        rw [← hall]
        rfl
      simp only [cloneRun, hm]
      rw [hfalse]
      rfl
    | ok b1 =>
      rw [hm] at hall
      have htrue : refs.all
          (fun r => !(findModule b r).isSome || (firstDigitRun r).isSome) = true := by
        rw [← hall]
        rfl
      have hinv := moveModules_inv X Y dx dy step refs b b1 hm
      have hany := findTemplateRect_isSome_any b1.zones
      simp only [cloneRun, hm]
      cases hr : findTemplateRect b1.zones with
      | none =>
        rw [hr, hinv.1] at hany
        simp only [Option.isSome_none] at hany
        rw [htrue, Bool.true_and, ← hany]
        rfl
      | some rect =>
        rw [hr, hinv.1] at hany
        simp only [Option.isSome_some] at hany
        rw [htrue, Bool.true_and, ← hany]
        rfl
  · intro zs
    have := findTemplateRect_fold_last zs none
    simpa [findTemplateRect] using this

/-- Input board for the idempotence check: one marker zone on layer 41
with bounding box [0,10]x[0,10], one copper zone inside it, and one track
touching it. -/
def idemBoard : Board :=
  ⟨[], [⟨(0, 0), 41, 0, ⟨0, 0, 10, 10⟩⟩, ⟨(5, 5), 0, 7, ⟨4, 4, 6, 6⟩⟩],
   [⟨(5, 5), (6, 6)⟩]⟩

/-- Claim C8: the transform is not idempotent.  On `idemBoard` with a
2-by-2 grid and pitch (100, 100), one run yields 5 zones and 4 tracks; a
second identical run duplicates the template zone and track again, growing
the collections to 8 zones and 7 tracks, so running twice differs from
running once. -/
theorem C8_not_idempotent :
    zonesLenOf (cloneRun 100 200 100 100 2 2 [] idemBoard) = some 5
    ∧ tracksLenOf (cloneRun 100 200 100 100 2 2 [] idemBoard) = some 4
    ∧ zonesLenOf (runTwice 100 200 100 100 2 2 [] idemBoard) = some 8
    ∧ tracksLenOf (runTwice 100 200 100 100 2 2 [] idemBoard) = some 7
    ∧ zonesLenOf (runTwice 100 200 100 100 2 2 [] idemBoard)
        ≠ zonesLenOf (cloneRun 100 200 100 100 2 2 [] idemBoard) := by
  decide
